import Mathlib

set_option maxHeartbeats 1000000

/-!
Shallow embedding of TinyG firmware 316.20 `motor_queue.c` (the motor move
queue: a 3-slot circular buffer of pre-computed moves, plus the DDA timing
quantizer `_mq_set_f_dda`).

C `double` values are modelled as `ℚ`; a possibly-non-finite `double`
argument is modelled as `Option ℚ` with `none` standing for a non-finite
value (the only use the source makes of non-finiteness is the
`isfinite(microseconds)` test in `mq_queue_line`).  C casts
`(uint32_t)d` are modelled by truncation toward zero followed by
reduction mod 2^32 (`u32cast`).  Machine integers `uint8_t`/`uint32_t`
are modelled as `ℕ` with explicit wrap where the source wraps.
-/

/-- Return codes used by this module.  Modelled from the spec §4.3/§7:
`tinyg.h` (which defines `TG_OK`, `TG_ZERO_LENGTH_MOVE`,
`TG_BUFFER_FULL_NON_FATAL`) is not part of the sources. -/
inductive TgCode where
  | ok
  | zeroLengthMove
  | bufferFullNonFatal
deriving DecidableEq

/-- Slot states.  Modelled from the spec §3 (`motor_queue.h` with
`MQ_BUFFER_LOADING` / `MQ_BUFFER_READY` is not part of the sources). -/
inductive MqState where
  | empty
  | loading
  | ready
deriving DecidableEq

/-- Move types.  Modelled from the spec §3 (`motor_queue.h` with
`MQ_LINE`, `MQ_DWELL`, start/stop opcodes is not part of the sources). -/
inductive MqType where
  | none
  | line
  | dwell
  | start
  | stop
  | endMove
deriving DecidableEq

/-- Per-axis fields of a move slot: `struct { dir; steps }` inside
`struct mqMove`.  `dir` is one bit (spec §6: one polarity bit per axis),
`steps` is a `uint32_t`. -/
structure MqAxis where
  dir : Bool
  steps : ℕ
deriving DecidableEq

/-- `struct mqMove` of motor_queue.c (field list per spec §3; the struct
itself lives in the missing `motor_queue.h`).  `MOTORS = 4`. -/
structure MqMove where
  a : Fin 4 → MqAxis
  timer_period : ℕ
  timer_ticks : ℕ
  timer_ticks_X_substeps : ℕ
  counter_reset_flag : Bool
  mq_type : MqType
  mq_state : MqState

/-- `MQ_BUFFER_SIZE` (motor_queue.c line 52). -/
def MQ_BUFFER_SIZE : ℕ := 3

/-- `struct mqSingleton` of motor_queue.c.  The C pointer `p` into
`move_buffer` is modelled as an optional slot index. -/
structure MqSingleton where
  head : ℕ
  tail : ℕ
  previous_ticks : ℕ
  p : Option (Fin 3)
  move_buffer : Fin 3 → MqMove

/-- Array indexing `mq.move_buffer[n]`; in every reachable state the C
indices are already `< 3`, the `% 3` only totalises the model. -/
def mqIdx (n : ℕ) : Fin 3 := ⟨n % 3, Nat.mod_lt _ (by omega)⟩

/-- A zeroed move slot (the singleton has static storage duration in C,
hence starts zero-initialized). -/
def mqZeroMove : MqMove :=
  { a := fun _ => { dir := false, steps := 0 }
    timer_period := 0
    timer_ticks := 0
    timer_ticks_X_substeps := 0
    counter_reset_flag := false
    mq_type := MqType.none
    mq_state := MqState.empty }

/-- The zero-initialized singleton `mq` before `mq_init` runs. -/
def mqZero : MqSingleton :=
  { head := 0, tail := 0, previous_ticks := 0, p := Option.none
    move_buffer := fun _ => mqZeroMove }

/-- `mq_init()`: sets `head = 0`, `tail = MQ_BUFFER_SIZE-1`. -/
def mq_init (s : MqSingleton) : MqSingleton :=
  { s with head := 0, tail := MQ_BUFFER_SIZE - 1 }

/-- The state after system start: zeroed singleton, then `mq_init()`. -/
def initState : MqSingleton := mq_init mqZero

/-- `mq_test_motor_buffer()`: FALSE iff `head == tail`. -/
def mq_test_motor_buffer (s : MqSingleton) : Bool :=
  !(s.head == s.tail)

/-- `mq_queue_motor_buffer()`: reserve the slot at `head`; returns `NULL`
(`none`) when `tail == head`; otherwise records the slot in `mq.p`,
post-increments `head` with wrap, and marks the slot `LOADING`. -/
def mq_queue_motor_buffer (s : MqSingleton) : MqSingleton × Option (Fin 3) :=
  if s.tail = s.head then (s, Option.none)
  else
    let i := mqIdx s.head
    let newHead := if s.head + 1 ≥ MQ_BUFFER_SIZE then 0 else s.head + 1
    ({ s with
        head := newHead
        p := some i
        move_buffer := Function.update s.move_buffer i
          { s.move_buffer i with mq_state := MqState.loading } },
     some i)

/-- `mq_dequeue_motor_buffer()`: pre-increments a candidate `next_tail`
with wrap; returns `NULL` (`none`) when `next_tail == head`; otherwise
advances `tail` and points `mq.p` at the dequeued slot. -/
def mq_dequeue_motor_buffer (s : MqSingleton) : MqSingleton × Option (Fin 3) :=
  let next_tail := if s.tail + 1 ≥ MQ_BUFFER_SIZE then 0 else s.tail + 1
  if next_tail = s.head then (s, Option.none)
  else ({ s with tail := next_tail, p := some (mqIdx next_tail) },
        some (mqIdx next_tail))

/-- `mq_flush_motor_buffer()`: `tail = head`, `p = NULL` (inside
`cli()`/`sei()`, which have no effect on this sequential model). -/
def mq_flush_motor_buffer (s : MqSingleton) : MqSingleton :=
  { s with tail := s.head, p := Option.none }

/-- Occupancy of the circular buffer (number of queued, unconsumed
slots), derived from the cursors. -/
def mq_occupancy (s : MqSingleton) : ℕ :=
  (s.head + MQ_BUFFER_SIZE - ((s.tail + 1) % MQ_BUFFER_SIZE)) % MQ_BUFFER_SIZE

/-- `MAX_ULONG` (0xFFFFFFFF, from the missing `util.h`; the spec calls it
"the maximum representable unsigned 32-bit value"). -/
def MAX_ULONG : ℚ := 4294967295

/-- Truncation of a rational toward zero, the rounding used by a C cast
of a `double` to an integer type. -/
def qtrunc (q : ℚ) : ℤ := if 0 ≤ q then ⌊q⌋ else -⌊-q⌋

/-- The C cast `(uint32_t)d` for a finite `double` `d`: truncation toward
zero, reduced mod 2^32 (for values outside `[0, 2^32)` the C cast is
undefined behaviour; the model picks the wrap). -/
def u32cast (q : ℚ) : ℕ := (qtrunc q).toNat % 4294967296

/-- Configuration constants consumed by motor_queue.c.  Modelled from the
spec §6: they live in headers (`system.h`, `config.h`, `tinyg.h`,
`stepper.h`) that are not part of the sources, so they are parameters of
the model.  `polarity` is the per-axis polarity bit table
`cfg.m[i].polarity`; `f_to_period` is the opaque external conversion
`_f_to_period`. -/
structure MqCfg where
  F_DDA : ℚ
  F_DDA_MIN : ℚ
  DDA_OVERCLOCK : ℕ
  DDA_SUBSTEPS : ℚ
  F_DWELL : ℚ
  EPSILON : ℚ
  COUNTER_RESET_FACTOR : ℕ
  polarity : Fin 4 → Bool
  f_to_period : ℚ → ℕ

/-- The clock-selection `for` loop of `_mq_set_f_dda` (lines 249-253):
`for (k = K; k > 0; k--) { f = base*k; if (f < F_DDA) break; }`.
`ddaLoop base fdda k` is the value of `f` after the loop has considered
multipliers `K, K-1, ..., 1` down to `k`; when no multiplier satisfies
`base*k < F_DDA` the loop exits having last assigned `f = base*1`. -/
def ddaLoop (base fdda : ℚ) : ℕ → ℚ
  | 0 => base
  | k + 1 => if base * ((k : ℚ) + 1) < fdda then base * ((k : ℚ) + 1) else ddaLoop base fdda k

/-- The clock-selection stage of `_mq_set_f_dda` (lines 243-254):
disabled overclock keeps the base rate; a base rate whose maximal
overclock is still below `F_DDA_MIN` is clamped to `F_DDA_MIN`;
otherwise the descending-multiplier loop runs. -/
def chooseFdda (fdda fmin : ℚ) (K : ℕ) (base : ℚ) : ℚ :=
  if K = 0 then base
  else if base * (K : ℚ) < fmin then fmin
  else ddaLoop base fdda K

/-- The substep-reduction `while` loop of `_mq_set_f_dda` (lines 255-270):
halve `dda_substeps` while `microseconds * f_dda * dda_substeps`
overflows `MAX_ULONG * 1e6`; when halving would drop it below 1, clamp
it to 1, discard overclock (`f_dda := base`, reclamped to `F_DDA_MIN`),
and if the product still overflows, trap (`TRAP1`) and break.  Returns
`(f_dda, dda_substeps, trapped)` where `trapped` records that the trap
hook fired. -/
def overflowGuard (fmin base us f : ℚ) (s : ℚ) : ℚ × ℚ × Bool :=
  if MAX_ULONG * 1000000 < us * f * s then
    if h : s / 2 < 1 then
      if MAX_ULONG * 1000000 < us * (if base < fmin then fmin else base) * 1 then
        ((if base < fmin then fmin else base), 1, true)
      else ((if base < fmin then fmin else base), 1, false)
    else overflowGuard fmin base us f (s / 2)
  else (f, s, false)
termination_by (⌈s⌉).toNat
decreasing_by
  have hs : (2 : ℚ) ≤ s := by
    by_contra hc
    push_neg at hc
    exact h (by linarith)
  have h1 : s / 2 ≤ s - 1 := by linarith
  have h2 : (⌈s / 2⌉ : ℤ) ≤ ⌈s - 1⌉ := Int.ceil_le_ceil h1
  have h3 : (⌈s - 1⌉ : ℤ) = ⌈s⌉ - 1 := by
    exact_mod_cast Int.ceil_sub_int s (1 : ℤ)
  have h4 : (2 : ℤ) ≤ ⌈s⌉ := by
    have := Int.le_ceil s
    have : (2 : ℚ) ≤ (⌈s⌉ : ℚ) := le_trans hs this
    exact_mod_cast this
  omega

/-- `_mq_set_f_dda()` (lines 236-272): compute the base step rate, run
the clock-selection stage, then the substep-reduction/overflow stage. -/
def _mq_set_f_dda (cfg : MqCfg) (major_axis_steps us : ℚ) : ℚ × ℚ × Bool :=
  let f_dda_base := major_axis_steps / us * 1000000
  let f0 := chooseFdda cfg.F_DDA cfg.F_DDA_MIN cfg.DDA_OVERCLOCK f_dda_base
  overflowGuard cfg.F_DDA_MIN f_dda_base us f0 cfg.DDA_SUBSTEPS

/-- `_mq_request_load()` (lines 304-310): label the current slot and mark
it READY (the `st_request_load()` notification is external and has no
effect on this state).  The C code dereferences `mq.p`, which is never
NULL on any caller's path; the NULL case returns the state unchanged. -/
def _mq_request_load (s : MqSingleton) (t : MqType) : MqSingleton × TgCode :=
  match s.p with
  | Option.none => (s, TgCode.ok)
  | some i =>
    let slot := { s.move_buffer i with mq_type := t, mq_state := MqState.ready }
    ({ s with move_buffer := Function.update s.move_buffer i slot }, TgCode.ok)

/-- The accumulated `length` of the validation loop of `mq_queue_line`
(lines 191-196): the sum of the squares of the per-axis steps.  The C
test `sqrt(length) < 1` is embedded as the equivalent `length < 1`
(both sides are nonnegative). -/
def sumSq (steps : Fin 4 → ℚ) : ℚ :=
  (steps 0) ^ 2 + (steps 1) ^ 2 + (steps 2) ^ 2 + (steps 3) ^ 2

/-- The accumulated `major_axis_steps` of the same loop: starting from 0,
`if (major < fabs(steps[i])) major = fabs(steps[i])`, i.e. a running
maximum of the absolute step counts. -/
def majorAxis (steps : Fin 4 → ℚ) : ℚ :=
  max (max (max (max 0 |steps 0|) |steps 1|) |steps 2|) |steps 3|

/-- `mq_queue_line()` (lines 172-223).  `usOpt = none` models a
non-finite `microseconds` argument.  On the buffer-full path the call
site `mq.p = mq_queue_motor_buffer()` stores NULL into `mq.p`. -/
def mq_queue_line (cfg : MqCfg) (steps : Fin 4 → ℚ) (usOpt : Option ℚ)
    (s : MqSingleton) : MqSingleton × TgCode :=
  match usOpt with
  | Option.none => (s, TgCode.zeroLengthMove)
  | some us =>
    if us < cfg.EPSILON then (s, TgCode.zeroLengthMove)
    else if sumSq steps < 1 ∨ majorAxis steps < 1 then (s, TgCode.zeroLengthMove)
    else
      match mq_queue_motor_buffer s with
      | (_, Option.none) => ({ s with p := Option.none }, TgCode.bufferFullNonFatal)
      | (s1, some i) =>
        let fd := _mq_set_f_dda cfg (majorAxis steps) us
        let f := fd.1
        let sub := fd.2.1
        let ticks := u32cast (us / 1000000 * f)
        let slot1 :=
          { s1.move_buffer i with
              a := fun j =>
                { dir := xor (decide (steps j < 0)) (cfg.polarity j)
                  steps := u32cast |steps j * sub| }
              timer_period := cfg.f_to_period f
              timer_ticks := ticks
              timer_ticks_X_substeps := u32cast (us / 1000000 * f * sub)
              counter_reset_flag :=
                decide ((ticks * cfg.COUNTER_RESET_FACTOR) % 4294967296
                  < s1.previous_ticks) }
        _mq_request_load
          { s1 with
              move_buffer := Function.update s1.move_buffer i slot1
              previous_ticks := ticks }
          MqType.line

/-- `mq_queue_dwell()` (lines 278-286).  No validation is performed; the
tick count is computed from the raw argument (`none`, a non-finite
duration, makes the C cast undefined behaviour; the model returns 0
ticks for it). -/
def mq_queue_dwell (cfg : MqCfg) (usOpt : Option ℚ) (s : MqSingleton) :
    MqSingleton × TgCode :=
  match mq_queue_motor_buffer s with
  | (_, Option.none) => ({ s with p := Option.none }, TgCode.bufferFullNonFatal)
  | (s1, some i) =>
    let slot1 :=
      { s1.move_buffer i with
          timer_period := cfg.f_to_period cfg.F_DWELL
          timer_ticks :=
            match usOpt with
            | some us => u32cast (us / 1000000 * cfg.F_DWELL)
            | Option.none => 0 }
    _mq_request_load
      { s1 with move_buffer := Function.update s1.move_buffer i slot1 }
      MqType.dwell

/-- `mq_queue_stops()` (lines 292-298): reserve and publish a slot
carrying only its type tag. -/
def mq_queue_stops (t : MqType) (s : MqSingleton) : MqSingleton × TgCode :=
  match mq_queue_motor_buffer s with
  | (_, Option.none) => ({ s with p := Option.none }, TgCode.bufferFullNonFatal)
  | (s1, some _) => _mq_request_load s1 t

/-- States of the motor queue reachable from system start through the
public API (with arbitrary configurations and arguments). -/
inductive MqReachable : MqSingleton → Prop where
  | init : MqReachable initState
  | queue (s) : MqReachable s → MqReachable (mq_queue_motor_buffer s).1
  | dequeue (s) : MqReachable s → MqReachable (mq_dequeue_motor_buffer s).1
  | flush (s) : MqReachable s → MqReachable (mq_flush_motor_buffer s)
  | line (cfg steps usOpt s) : MqReachable s →
      MqReachable (mq_queue_line cfg steps usOpt s).1
  | dwell (cfg usOpt s) : MqReachable s →
      MqReachable (mq_queue_dwell cfg usOpt s).1
  | stops (t s) : MqReachable s → MqReachable (mq_queue_stops t s).1
  | reinit (s) : MqReachable s → MqReachable (mq_init s)

/-- Both cursors stay inside the 3-slot array in every reachable state. -/
def MqInv (s : MqSingleton) : Prop := s.head < 3 ∧ s.tail < 3

/-- A representative configuration with overclock ceiling 2 (the actual
header values are not in the sources; the claims quantify over them). -/
def cfgC4 : MqCfg :=
  { F_DDA := 50000, F_DDA_MIN := 1000, DDA_OVERCLOCK := 2, DDA_SUBSTEPS := 1
    F_DWELL := 10000, EPSILON := 1/10000, COUNTER_RESET_FACTOR := 2
    polarity := fun _ => false, f_to_period := fun _ => 0 }

/-- Configuration exercising the overflow guard: initial substep
multiplier 8, which one halving brings within the 32-bit bound for the
witness input below. -/
def cfgC7 : MqCfg :=
  { F_DDA := 50000, F_DDA_MIN := 1000, DDA_OVERCLOCK := 2, DDA_SUBSTEPS := 8
    F_DWELL := 10000, EPSILON := 1/10000, COUNTER_RESET_FACTOR := 2
    polarity := fun _ => false, f_to_period := fun _ => 0 }

/-- A configuration with overclocking disabled and substep multiplier 1,
used for concrete evaluations of the submission API. -/
def cfg0 : MqCfg :=
  { F_DDA := 50000, F_DDA_MIN := 1000, DDA_OVERCLOCK := 0, DDA_SUBSTEPS := 1
    F_DWELL := 10000, EPSILON := 1/10000, COUNTER_RESET_FACTOR := 2
    polarity := fun _ => false, f_to_period := fun _ => 0 }

/-- The spec's example move `[100, 0, 0, 0]`. -/
def steps100 : Fin 4 → ℚ := ![100, 0, 0, 0]

/-- A move with a fractional major axis, separating truncation from
rounding. -/
def stepsC5 : Fin 4 → ℚ := ![3/2, 0, 0, 0]

/-- The spec's degenerate move `[0, 0, 0, 0]`. -/
def stepsZero : Fin 4 → ℚ := ![0, 0, 0, 0]

/-- The spec's `round(x)`: round half up to the nearest integer, for
comparison against the code's truncating casts. -/
def roundSpec (q : ℚ) : ℤ := ⌊q + 1/2⌋

/-! ### Step lemmas: cursor behaviour of each operation -/

theorem queue_fst_head (s : MqSingleton) :
    (mq_queue_motor_buffer s).1.head
      = if s.tail = s.head then s.head else if s.head + 1 ≥ 3 then 0 else s.head + 1 := by
  simp only [mq_queue_motor_buffer, MQ_BUFFER_SIZE]
  split
  · rfl
  · dsimp only

theorem queue_fst_tail (s : MqSingleton) :
    (mq_queue_motor_buffer s).1.tail = s.tail := by
  simp only [mq_queue_motor_buffer, MQ_BUFFER_SIZE]
  split <;> rfl

theorem queue_fst_prev (s : MqSingleton) :
    (mq_queue_motor_buffer s).1.previous_ticks = s.previous_ticks := by
  simp only [mq_queue_motor_buffer, MQ_BUFFER_SIZE]
  split <;> rfl

theorem queue_snd (s : MqSingleton) :
    (mq_queue_motor_buffer s).2
      = if s.tail = s.head then Option.none else some (mqIdx s.head) := by
  simp only [mq_queue_motor_buffer, MQ_BUFFER_SIZE]
  split <;> rfl

theorem dequeue_fst_head (s : MqSingleton) :
    (mq_dequeue_motor_buffer s).1.head = s.head := by
  simp only [mq_dequeue_motor_buffer, MQ_BUFFER_SIZE]
  split <;> split <;> rfl

theorem dequeue_fst_tail (s : MqSingleton) :
    (mq_dequeue_motor_buffer s).1.tail
      = if (if s.tail + 1 ≥ 3 then 0 else s.tail + 1) = s.head then s.tail
        else (if s.tail + 1 ≥ 3 then 0 else s.tail + 1) := by
  simp only [mq_dequeue_motor_buffer, MQ_BUFFER_SIZE]
  split <;> split <;> rfl

theorem dequeue_snd (s : MqSingleton) :
    (mq_dequeue_motor_buffer s).2
      = if (if s.tail + 1 ≥ 3 then 0 else s.tail + 1) = s.head then Option.none
        else some (mqIdx (if s.tail + 1 ≥ 3 then 0 else s.tail + 1)) := by
  simp only [mq_dequeue_motor_buffer, MQ_BUFFER_SIZE]
  split <;> split <;> rfl

theorem req_fst_head (s : MqSingleton) (t : MqType) :
    (_mq_request_load s t).1.head = s.head := by
  unfold _mq_request_load
  cases s.p <;> rfl

theorem req_fst_tail (s : MqSingleton) (t : MqType) :
    (_mq_request_load s t).1.tail = s.tail := by
  unfold _mq_request_load
  cases s.p <;> rfl

theorem req_fst_prev (s : MqSingleton) (t : MqType) :
    (_mq_request_load s t).1.previous_ticks = s.previous_ticks := by
  unfold _mq_request_load
  cases s.p <;> rfl

theorem req_fst_p (s : MqSingleton) (t : MqType) :
    (_mq_request_load s t).1.p = s.p := by
  unfold _mq_request_load
  cases h : s.p
  · rw [h]
  · rfl

theorem req_snd (s : MqSingleton) (t : MqType) :
    (_mq_request_load s t).2 = TgCode.ok := by
  unfold _mq_request_load
  cases s.p <;> rfl

theorem req_buffer_at (s : MqSingleton) (t : MqType) (i : Fin 3) (h : s.p = some i) :
    (_mq_request_load s t).1.move_buffer i
      = { s.move_buffer i with mq_type := t, mq_state := MqState.ready } := by
  unfold _mq_request_load
  rw [h]
  dsimp only
  rw [Function.update_same]

/-! ### The cursor invariant and its preservation -/


theorem inv_queue (s : MqSingleton) (h : MqInv s) : MqInv (mq_queue_motor_buffer s).1 := by
  refine ⟨?_, ?_⟩
  · rw [queue_fst_head]
    have := h.1
    split
    · omega
    · split <;> omega
  · rw [queue_fst_tail]
    exact h.2

theorem inv_dequeue (s : MqSingleton) (h : MqInv s) : MqInv (mq_dequeue_motor_buffer s).1 := by
  refine ⟨?_, ?_⟩
  · rw [dequeue_fst_head]
    exact h.1
  · rw [dequeue_fst_tail]
    have := h.2
    split <;> split <;> omega

theorem inv_flush (s : MqSingleton) (h : MqInv s) : MqInv (mq_flush_motor_buffer s) :=
  ⟨h.1, h.1⟩

theorem inv_request (s : MqSingleton) (t : MqType) (h : MqInv s) :
    MqInv (_mq_request_load s t).1 := by
  refine ⟨?_, ?_⟩
  · rw [req_fst_head]; exact h.1
  · rw [req_fst_tail]; exact h.2

theorem inv_line (cfg : MqCfg) (steps : Fin 4 → ℚ) (usOpt : Option ℚ) (s : MqSingleton)
    (h : MqInv s) : MqInv (mq_queue_line cfg steps usOpt s).1 := by
  unfold mq_queue_line
  cases usOpt with
  | none => exact h
  | some us =>
    dsimp only
    split
    · exact h
    · split
      · exact h
      · rcases hq : mq_queue_motor_buffer s with ⟨s1, oi⟩
        have h1 : MqInv s1 := by
          have h2 := inv_queue s h
          rw [hq] at h2
          exact h2
        cases oi with
        | none => exact h
        | some i => exact inv_request _ _ h1

theorem inv_dwell (cfg : MqCfg) (usOpt : Option ℚ) (s : MqSingleton)
    (h : MqInv s) : MqInv (mq_queue_dwell cfg usOpt s).1 := by
  unfold mq_queue_dwell
  rcases hq : mq_queue_motor_buffer s with ⟨s1, oi⟩
  have h1 : MqInv s1 := by
    have h2 := inv_queue s h
    rw [hq] at h2
    exact h2
  cases oi with
  | none => exact h
  | some i => exact inv_request _ _ h1

theorem inv_stops (t : MqType) (s : MqSingleton) (h : MqInv s) :
    MqInv (mq_queue_stops t s).1 := by
  unfold mq_queue_stops
  rcases hq : mq_queue_motor_buffer s with ⟨s1, oi⟩
  have h1 : MqInv s1 := by
    have h2 := inv_queue s h
    rw [hq] at h2
    exact h2
  cases oi with
  | none => exact h
  | some i => exact inv_request _ _ h1

/-- Every reachable state keeps both cursors inside the array. -/
theorem reachable_inv (s : MqSingleton) (h : MqReachable s) : MqInv s := by
  induction h with
  | init => exact ⟨by norm_num [initState, mq_init], by norm_num [initState, mq_init, MQ_BUFFER_SIZE]⟩
  | queue s _ ih => exact inv_queue s ih
  | dequeue s _ ih => exact inv_dequeue s ih
  | flush s _ ih => exact inv_flush s ih
  | line cfg steps usOpt s _ ih => exact inv_line cfg steps usOpt s ih
  | dwell cfg usOpt s _ ih => exact inv_dwell cfg usOpt s ih
  | stops t s _ ih => exact inv_stops t s ih
  | reinit s _ ih => exact ⟨by norm_num [mq_init], by norm_num [mq_init, MQ_BUFFER_SIZE]⟩

/-! ### Claims C1-C3: circular buffer behaviour -/

/-- Wrap-increment versus `mod 3`, for cursors inside the array. -/
theorem wrap_eq_mod (a b : ℕ) (ha : a < 3) :
    ((if a + 1 ≥ 3 then 0 else a + 1) = b) ↔ (a + 1) % 3 = b := by
  split <;> omega

/-- Occupancy `2 = C-1` happens exactly at `tail == head`. -/
theorem occupancy_full (s : MqSingleton) (h1 : s.head < 3) (h2 : s.tail < 3) :
    mq_occupancy s = 2 ↔ s.head = s.tail := by
  unfold mq_occupancy
  simp only [MQ_BUFFER_SIZE]
  omega

/-- C1: the claim says that flushing leaves the buffer empty (the next
`mq_dequeue_motor_buffer` returns nothing).  The code does the opposite:
`mq_flush_motor_buffer` sets `tail = head`, which under the conventions
actually implemented by `mq_queue_motor_buffer` (fail iff `tail == head`)
and `mq_dequeue_motor_buffer` (fail iff `tail+1 ≡ head`) is the FULL
configuration, not the empty one.  Starting from the (reachable) freshly
initialized state, a flush followed by a dequeue hands out the stale slot
at index 1 instead of returning nothing, and a reservation after the
flush reports buffer-full; only the flush-twice-equals-flush-once part of
the claim holds.  This contradicts the code's own comments (lines 83 and
91-92 of motor_queue.c), so it is a defect of the code, not of the
claim. -/
theorem C1_flush_bug :
    MqReachable (mq_flush_motor_buffer initState) ∧
    (mq_dequeue_motor_buffer (mq_flush_motor_buffer initState)).2 = some (mqIdx 1) ∧
    (mq_queue_motor_buffer (mq_flush_motor_buffer initState)).2 = Option.none ∧
    mq_flush_motor_buffer (mq_flush_motor_buffer initState)
      = mq_flush_motor_buffer initState :=
  ⟨MqReachable.flush _ MqReachable.init, by decide, by decide, rfl⟩

/-- C2: from the freshly initialized 3-slot buffer: it reports empty
(`mq_test_motor_buffer` is TRUE and `mq_dequeue_motor_buffer` returns
nothing); exactly `C-1 = 2` consecutive reservations succeed and the
third returns nothing; after one successful dequeue from the full buffer
exactly one further reservation succeeds. -/
theorem C2_init_capacity :
    mq_test_motor_buffer initState = true ∧
    (mq_dequeue_motor_buffer initState).2 = Option.none ∧
    (mq_queue_motor_buffer initState).2.isSome = true ∧
    (mq_queue_motor_buffer (mq_queue_motor_buffer initState).1).2.isSome = true ∧
    (mq_queue_motor_buffer
      (mq_queue_motor_buffer (mq_queue_motor_buffer initState).1).1).2 = Option.none ∧
    (mq_dequeue_motor_buffer
      (mq_queue_motor_buffer (mq_queue_motor_buffer initState).1).1).2.isSome = true ∧
    (mq_queue_motor_buffer (mq_dequeue_motor_buffer
      (mq_queue_motor_buffer (mq_queue_motor_buffer initState).1).1).1).2.isSome = true ∧
    (mq_queue_motor_buffer (mq_queue_motor_buffer (mq_dequeue_motor_buffer
      (mq_queue_motor_buffer (mq_queue_motor_buffer initState).1).1).1).1).2
      = Option.none := by
  decide

/-- C3, counterexample to the claimed invariant: the claim says
`head == tail` exactly when the buffer is empty and `head+1 ≡ tail`
exactly when it is full.  In the (reachable) initial state the buffer is
empty (`mq_dequeue_motor_buffer` returns nothing) yet `head ≠ tail`, and
in the reachable full state (after two reservations) reservation fails
yet `head+1 ≢ tail (mod 3)`. -/
theorem C3_counterexample :
    (mq_dequeue_motor_buffer initState).2 = Option.none ∧
    initState.head ≠ initState.tail ∧
    (mq_queue_motor_buffer
      (mq_queue_motor_buffer (mq_queue_motor_buffer initState).1).1).2 = Option.none ∧
    ¬(((mq_queue_motor_buffer (mq_queue_motor_buffer initState).1).1.head + 1) % 3
        = (mq_queue_motor_buffer (mq_queue_motor_buffer initState).1).1.tail) := by
  decide

/-- C3, amended: in every reachable state of the move buffer the empty
condition (dequeue returns nothing) is `tail+1 ≡ head (mod C)` and the
full condition (reserve returns nothing) is `head == tail`; usable
capacity is `C-1`: reservation fails exactly when the occupancy is
`C-1 = 2`. -/
theorem C3_buffer_invariants (s : MqSingleton) (h : MqReachable s) :
    ((mq_dequeue_motor_buffer s).2 = Option.none ↔ (s.tail + 1) % 3 = s.head) ∧
    ((mq_queue_motor_buffer s).2 = Option.none ↔ s.head = s.tail) ∧
    ((mq_queue_motor_buffer s).2 = Option.none ↔ mq_occupancy s = 2) := by
  obtain ⟨h1, h2⟩ := reachable_inv s h
  have hq : (mq_queue_motor_buffer s).2 = Option.none ↔ s.head = s.tail := by
    rw [queue_snd]
    split
    next hc => simp [hc]
    next hc =>
      simp only [reduceCtorEq, false_iff]
      exact fun he => hc he.symm
  refine ⟨?_, hq, hq.trans (occupancy_full s h1 h2).symm⟩
  rw [dequeue_snd, ← wrap_eq_mod s.tail s.head h2]
  split
  next hc => simp [hc]
  next hc => simp [hc]

/-- C3, witness: the amended invariant evaluated in the initial state. -/
theorem C3_witness :
    ((mq_dequeue_motor_buffer initState).2 = Option.none
        ↔ (initState.tail + 1) % 3 = initState.head) ∧
    ((mq_queue_motor_buffer initState).2 = Option.none
        ↔ initState.head = initState.tail) ∧
    ((mq_queue_motor_buffer initState).2 = Option.none ↔ mq_occupancy initState = 2) :=
  C3_buffer_invariants initState MqReachable.init

/-! ### Claims C4, C6: the clock-selection stage -/
theorem le_ddaLoop (base fdda : ℚ) (hb : 0 ≤ base) (k : ℕ) :
    base ≤ ddaLoop base fdda k := by
  induction k with
  | zero => exact le_refl base
  | succ k ih =>
    unfold ddaLoop
    split
    · nlinarith [Nat.cast_nonneg (α := ℚ) k]
    · exact ih

theorem ddaLoop_le (base fdda : ℚ) (hb : 0 ≤ base) (k : ℕ) :
    ddaLoop base fdda k ≤ base * (max 1 k : ℕ) := by
  induction k with
  | zero => simp [ddaLoop]
  | succ k ih =>
    unfold ddaLoop
    have hmax : (max 1 (k+1) : ℕ) = k + 1 := by omega
    split
    · rw [hmax]
      push_cast
      linarith
    · refine le_trans ih ?_
      have : (max 1 k : ℕ) ≤ (max 1 (k+1) : ℕ) := by omega
      exact mul_le_mul_of_nonneg_left (by exact_mod_cast this) hb

theorem ddaLoop_succ_le (base fdda : ℚ) (hb : 0 ≤ base) (k : ℕ) :
    ddaLoop base fdda k ≤ ddaLoop base fdda (k + 1) := by
  conv_rhs => rw [ddaLoop]
  split
  · refine le_trans (ddaLoop_le base fdda hb k) ?_
    have : ((max 1 k : ℕ) : ℚ) ≤ (k : ℚ) + 1 := by
      have : (max 1 k : ℕ) ≤ k + 1 := by omega
      exact_mod_cast this
    nlinarith
  · exact le_refl _

theorem ddaLoop_mono (base fdda : ℚ) (hb : 0 ≤ base) {k1 k2 : ℕ} (h : k1 ≤ k2) :
    ddaLoop base fdda k1 ≤ ddaLoop base fdda k2 := by
  induction k2 with
  | zero =>
    have : k1 = 0 := by omega
    rw [this]
  | succ k ih =>
    rcases Nat.lt_or_ge k1 (k+1) with h2 | h2
    · exact le_trans (ih (by omega)) (ddaLoop_succ_le base fdda hb k)
    · have : k1 = k + 1 := by omega
      rw [this]

theorem ddaLoop_lt_fdda (base fdda : ℚ) (h : base < fdda) (k : ℕ) :
    ddaLoop base fdda k < fdda := by
  induction k with
  | zero => exact h
  | succ k ih =>
    unfold ddaLoop
    split
    next hc => exact hc
    next => exact ih

theorem min_le_ddaLoop (base fdda : ℚ) (hb : 0 < base) (k : ℕ) :
    min (base * (max 1 k : ℕ)) (fdda - base) ≤ ddaLoop base fdda k := by
  induction k with
  | zero =>
    simp only [ddaLoop, Nat.max_self]
    have : (max 1 0 : ℕ) = 1 := by omega
    rw [this]
    push_cast
    exact le_trans (min_le_left _ _) (by linarith)
  | succ k ih =>
    unfold ddaLoop
    split
    next hc =>
      have hmax : ((max 1 (k+1) : ℕ) : ℚ) = (k : ℚ) + 1 := by
        have : (max 1 (k+1) : ℕ) = k + 1 := by omega
        rw [this]; push_cast; ring
      rw [hmax]
      exact min_le_left _ _
    next hc =>
      push_neg at hc
      -- fdda ≤ base*(k+1); show min (base * max 1 (k+1)) (fdda - base) ≤ ddaLoop k
      have hfb : fdda - base ≤ ddaLoop base fdda k := by
        rcases Nat.eq_zero_or_pos k with hk | hk
        · subst hk
          simp only [ddaLoop]
          have : fdda ≤ base * 1 := by
            calc fdda ≤ base * ((0:ℚ) + 1) := hc
            _ = base * 1 := by ring
          linarith
        · have hx : fdda - base ≤ base * (max 1 k : ℕ) := by
            have hmk : (max 1 k : ℕ) = k := by omega
            rw [hmk]
            have : base * ((k : ℚ) + 1) - base = base * (k : ℚ) := by ring
            linarith
          have := ih
          rcases min_cases (base * ((max 1 k : ℕ) : ℚ)) (fdda - base) with ⟨hmin, hle⟩ | ⟨hmin, hle⟩
          · rw [hmin] at this
            linarith
          · rw [hmin] at this
            exact this
      exact le_trans (min_le_right _ _) hfb

theorem chooseFdda_mono (fdda fmin base : ℚ) (hb : 0 < base) (_hm : 0 < fmin)
    (hf : 2 * fmin ≤ fdda) {K1 K2 : ℕ} (hK : K1 ≤ K2) :
    chooseFdda fdda fmin K1 base ≤ chooseFdda fdda fmin K2 base := by
  unfold chooseFdda
  rcases Nat.eq_zero_or_pos K1 with h1 | h1
  · subst h1
    rw [if_pos rfl]
    rcases Nat.eq_zero_or_pos K2 with h2 | h2
    · subst h2
      rw [if_pos rfl]
    · rw [if_neg (by omega)]
      split
    -- base ≤ fmin case and loop case
      next hc =>
        have : base * 1 ≤ base * (K2 : ℚ) := by
          have : (1:ℚ) ≤ (K2 : ℚ) := by exact_mod_cast h2
          nlinarith
        linarith
      next => exact le_ddaLoop base fdda (le_of_lt hb) K2
  · have hk1 : K1 ≠ 0 := by omega
    have hk2 : K2 ≠ 0 := by omega
    rw [if_neg hk1, if_neg hk2]
    by_cases hc1 : base * (K1 : ℚ) < fmin
    · rw [if_pos hc1]
      by_cases hc2 : base * (K2 : ℚ) < fmin
      · rw [if_pos hc2]
      · rw [if_neg hc2]
        push_neg at hc2
        -- fmin ≤ ddaLoop base fdda K2
        have hbase_lt : base < fmin := by
          have : base * 1 ≤ base * (K1 : ℚ) := by
            have : (1:ℚ) ≤ (K1 : ℚ) := by exact_mod_cast h1
            nlinarith
          linarith
        have h2 : 0 < K2 := by omega
        have hmk : (max 1 K2 : ℕ) = K2 := by omega
        have := min_le_ddaLoop base fdda hb K2
        rw [hmk] at this
        rcases min_cases (base * ((K2 : ℕ) : ℚ)) (fdda - base) with ⟨hmin, _⟩ | ⟨hmin, _⟩
        · rw [hmin] at this
          linarith
        · rw [hmin] at this
          linarith
    · rw [if_neg hc1]
      have hc2 : ¬ base * (K2 : ℚ) < fmin := by
        push_neg at hc1 ⊢
        refine le_trans hc1 ?_
        have : (K1 : ℚ) ≤ (K2 : ℚ) := by exact_mod_cast hK
        nlinarith
      rw [if_neg hc2]
      exact ddaLoop_mono base fdda (le_of_lt hb) hK

theorem chooseFdda_le (fdda fmin base : ℚ) (_hb : 0 < base) (hm : 0 < fmin)
    (hf : 2 * fmin ≤ fdda) (hlt : base < fdda) (K : ℕ) :
    chooseFdda fdda fmin K base ≤ fdda := by
  unfold chooseFdda
  split
  · exact le_of_lt hlt
  · split
    · linarith
    · exact le_of_lt (ddaLoop_lt_fdda base fdda hlt K)


/-- C4, counterexample: on the valid input `major_axis_steps = 100000`,
`microseconds = 1000000` (base rate 100000 steps/s) with overclock
ceiling 2, the frequency chosen by `_mq_set_f_dda` is 100000, which
exceeds the hardware maximum `F_DDA = 50000`: when even multiplier 1 is
at or above `F_DDA`, the selection loop falls back to the base rate
without clamping it. -/
theorem C4_counterexample :
    (1:ℚ) ≤ 100000 ∧ (0:ℚ) < 1000000 ∧
    cfgC4.F_DDA < (_mq_set_f_dda cfgC4 100000 1000000).1 := by
  refine ⟨by norm_num, by norm_num, ?_⟩
  have h : _mq_set_f_dda cfgC4 100000 1000000 = (100000, 1, false) := by
    show overflowGuard _ _ _ _ _ = _
    rw [overflowGuard]
    norm_num [cfgC4, MAX_ULONG, chooseFdda, ddaLoop]
  rw [h]
  norm_num [cfgC4]

/-- C4, amended: for every valid input (`major_axis_steps ≥ 1`, positive
finite duration) and hardware bounds with `0 < F_DDA_MIN` and
`2*F_DDA_MIN ≤ F_DDA`, the frequency selected by the clock-selection
stage of `_mq_set_f_dda` is monotone in the overclock ceiling, and it
never exceeds the hardware maximum `F_DDA` provided the base step rate
is itself below `F_DDA` (otherwise the loop falls back to the base
rate). -/
theorem C4_quantizer_mono (fdda fmin major us : ℚ) (K1 K2 : ℕ)
    (hmaj : 1 ≤ major) (hus : 0 < us) (hm : 0 < fmin) (hf : 2 * fmin ≤ fdda)
    (hK : K1 ≤ K2) :
    chooseFdda fdda fmin K1 (major / us * 1000000)
      ≤ chooseFdda fdda fmin K2 (major / us * 1000000) ∧
    (major / us * 1000000 < fdda →
      chooseFdda fdda fmin K2 (major / us * 1000000) ≤ fdda) := by
  have hmaj0 : (0:ℚ) < major := by linarith
  have hb : 0 < major / us * 1000000 := by
    have := div_pos hmaj0 hus
    linarith
  exact ⟨chooseFdda_mono fdda fmin _ hb hm hf hK,
         fun hlt => chooseFdda_le fdda fmin _ hb hm hf hlt K2⟩

/-- C4, witness: the amended statement at base rate 100 steps/s,
ceilings 1 ≤ 2, bounds `F_DDA_MIN = 1000`, `F_DDA = 50000`. -/
theorem C4_witness :
    chooseFdda 50000 1000 1 (100 / 1000000 * 1000000)
      ≤ chooseFdda 50000 1000 2 (100 / 1000000 * 1000000) ∧
    ((100:ℚ) / 1000000 * 1000000 < 50000 →
      chooseFdda 50000 1000 2 (100 / 1000000 * 1000000) ≤ 50000) :=
  C4_quantizer_mono 50000 1000 100 1000000 1 2 (by norm_num) (by norm_num)
    (by norm_num) (by norm_num) (by norm_num)

/-- C6, counterexample: with overclock ceiling 2, minimum 1000 and base
rate 900 (input `major_axis_steps = 900`, `microseconds = 1000000`), the
base rate is below `F_DDA_MIN` yet `_mq_set_f_dda` selects `900*2 =
1800`, not `F_DDA_MIN`: the code clamps only when `base *
DDA_OVERCLOCK < F_DDA_MIN`, not when `base < F_DDA_MIN`. -/
theorem C6_counterexample :
    (900:ℚ) < cfgC4.F_DDA_MIN ∧ cfgC4.DDA_OVERCLOCK ≠ 0 ∧
    (_mq_set_f_dda cfgC4 900 1000000).1 = 1800 ∧ (1800:ℚ) ≠ cfgC4.F_DDA_MIN := by
  refine ⟨by norm_num [cfgC4], by norm_num [cfgC4], ?_, by norm_num [cfgC4]⟩
  have h : _mq_set_f_dda cfgC4 900 1000000 = (1800, 1, false) := by
    show overflowGuard _ _ _ _ _ = _
    rw [overflowGuard]
    norm_num [cfgC4, MAX_ULONG, chooseFdda, ddaLoop]
  rw [h]

/-- C6, amended: with overclocking enabled, when even the maximal
overclocked frequency would fall below the hardware minimum usable
frequency (`base_rate * DDA_OVERCLOCK < F_DDA_MIN`), the clock-selection
stage clamps the chosen frequency to `F_DDA_MIN`. -/
theorem C6_min_clamp (fdda fmin base : ℚ) (K : ℕ) (hK : K ≠ 0)
    (h : base * (K:ℚ) < fmin) : chooseFdda fdda fmin K base = fmin := by
  unfold chooseFdda
  rw [if_neg hK, if_pos h]

/-- C6, witness: ceiling 2, minimum 1000, base rate 400: `400*2 < 1000`
so the selection clamps to 1000. -/
theorem C6_witness : chooseFdda 50000 1000 2 400 = 1000 :=
  C6_min_clamp 50000 1000 400 2 (by norm_num) (by norm_num)

/-! ### Claim C7: the overflow guard -/
theorem overflowGuard_spec (fmin base us f s : ℚ) :
    ((overflowGuard fmin base us f s).2.2 = false →
        us * (overflowGuard fmin base us f s).1 * (overflowGuard fmin base us f s).2.1
          ≤ MAX_ULONG * 1000000) ∧
    ((overflowGuard fmin base us f s).2.2 = true →
        MAX_ULONG * 1000000
            < us * (overflowGuard fmin base us f s).1 * (overflowGuard fmin base us f s).2.1 ∧
        (overflowGuard fmin base us f s).2.1 = 1 ∧
        (overflowGuard fmin base us f s).1 = (if base < fmin then fmin else base)) ∧
    ((overflowGuard fmin base us f s).1 = f ∨
      ((overflowGuard fmin base us f s).1 = (if base < fmin then fmin else base) ∧
        (overflowGuard fmin base us f s).2.1 = 1)) ∧
    ((overflowGuard fmin base us f s).2.1 = 1 ∨
      ∃ k : ℕ, (overflowGuard fmin base us f s).2.1 = s / 2 ^ k) := by
  induction s using overflowGuard.induct fmin base us f with
  | case1 x hov hlt hov2 =>
    simp only [dite_eq_ite] at hov2
    rw [overflowGuard, if_pos hov, dif_pos hlt, if_pos hov2]
    refine ⟨by simp, fun _ => ⟨?_, rfl, rfl⟩, Or.inr ⟨rfl, rfl⟩, Or.inl rfl⟩
    simpa [mul_assoc] using hov2
  | case2 x hov hlt hov2 =>
    simp only [dite_eq_ite] at hov2
    rw [overflowGuard, if_pos hov, dif_pos hlt, if_neg hov2]
    push_neg at hov2
    refine ⟨fun _ => ?_, by simp, Or.inr ⟨rfl, rfl⟩, Or.inl rfl⟩
    simpa [mul_assoc] using hov2
  | case3 x hov hlt ih =>
    rw [overflowGuard, if_pos hov, dif_neg hlt]
    refine ⟨ih.1, ih.2.1, ih.2.2.1, ?_⟩
    rcases ih.2.2.2 with h1 | ⟨k, hk⟩
    · exact Or.inl h1
    · refine Or.inr ⟨k + 1, ?_⟩
      rw [hk, div_div]
      ring_nf
  | case4 x hov =>
    rw [overflowGuard, if_neg hov]
    push_neg at hov
    exact ⟨fun _ => hov, by simp, Or.inl rfl, Or.inr ⟨0, by norm_num⟩⟩

/-- C7: overflow guard of `_mq_set_f_dda`.  Writing `(f', s', trapped)`
for its result: (1) if the trap did not fire, the scaled tick product
`duration/1e6 * f' * s'` fits below the maximum unsigned 32-bit value;
(2) if the trap fired, the product still overflows even with the
multiplier clamped to 1 and the overclock discarded (`f' = base_rate`
reclamped to `F_DDA_MIN`); (3) the frequency is either left as selected
or the overclock is discarded exactly as described, with the multiplier
clamped to 1; (4) the final multiplier is the initial `DDA_SUBSTEPS`
halved some number of times, or clamped to 1. -/
theorem C7_overflow_guard (cfg : MqCfg) (major us : ℚ) :
    ((_mq_set_f_dda cfg major us).2.2 = false →
        us / 1000000 * (_mq_set_f_dda cfg major us).1 * (_mq_set_f_dda cfg major us).2.1
          ≤ MAX_ULONG) ∧
    ((_mq_set_f_dda cfg major us).2.2 = true →
        MAX_ULONG
            < us / 1000000 * (_mq_set_f_dda cfg major us).1
                * (_mq_set_f_dda cfg major us).2.1 ∧
        (_mq_set_f_dda cfg major us).2.1 = 1 ∧
        (_mq_set_f_dda cfg major us).1
          = (if major / us * 1000000 < cfg.F_DDA_MIN then cfg.F_DDA_MIN
             else major / us * 1000000)) ∧
    ((_mq_set_f_dda cfg major us).1
        = chooseFdda cfg.F_DDA cfg.F_DDA_MIN cfg.DDA_OVERCLOCK (major / us * 1000000) ∨
      ((_mq_set_f_dda cfg major us).1
          = (if major / us * 1000000 < cfg.F_DDA_MIN then cfg.F_DDA_MIN
             else major / us * 1000000) ∧
        (_mq_set_f_dda cfg major us).2.1 = 1)) ∧
    ((_mq_set_f_dda cfg major us).2.1 = 1 ∨
      ∃ k : ℕ, (_mq_set_f_dda cfg major us).2.1 = cfg.DDA_SUBSTEPS / 2 ^ k) := by
  have hconv : ∀ a b : ℚ,
      (us / 1000000 * a * b ≤ MAX_ULONG) ↔ (us * a * b ≤ MAX_ULONG * 1000000) := by
    intro a b
    rw [div_mul_eq_mul_div, div_mul_eq_mul_div,
      div_le_iff₀ (by norm_num : (0:ℚ) < 1000000)]
  have hconv2 : ∀ a b : ℚ,
      (MAX_ULONG < us / 1000000 * a * b) ↔ (MAX_ULONG * 1000000 < us * a * b) := by
    intro a b
    rw [div_mul_eq_mul_div, div_mul_eq_mul_div,
      lt_div_iff₀ (by norm_num : (0:ℚ) < 1000000)]
  have hs := overflowGuard_spec cfg.F_DDA_MIN (major / us * 1000000) us
      (chooseFdda cfg.F_DDA cfg.F_DDA_MIN cfg.DDA_OVERCLOCK (major / us * 1000000))
      cfg.DDA_SUBSTEPS
  refine ⟨fun h => (hconv _ _).mpr (hs.1 h),
          fun h => ⟨(hconv2 _ _).mpr (hs.2.1 h).1, (hs.2.1 h).2.1, (hs.2.1 h).2.2⟩,
          hs.2.2.1, hs.2.2.2⟩


/-- C7, witness: the guard specification instantiated at a move of 10^7
steps over 10^12 microseconds under `cfgC7` (the initial product
overflows and the multiplier is halved). -/
theorem C7_witness :
    ((_mq_set_f_dda cfgC7 10000000 1000000000000).2.2 = false →
        (1000000000000:ℚ) / 1000000 * (_mq_set_f_dda cfgC7 10000000 1000000000000).1
            * (_mq_set_f_dda cfgC7 10000000 1000000000000).2.1
          ≤ MAX_ULONG) ∧
    ((_mq_set_f_dda cfgC7 10000000 1000000000000).2.2 = true →
        MAX_ULONG
            < (1000000000000:ℚ) / 1000000 * (_mq_set_f_dda cfgC7 10000000 1000000000000).1
                * (_mq_set_f_dda cfgC7 10000000 1000000000000).2.1 ∧
        (_mq_set_f_dda cfgC7 10000000 1000000000000).2.1 = 1 ∧
        (_mq_set_f_dda cfgC7 10000000 1000000000000).1
          = (if (10000000:ℚ) / 1000000000000 * 1000000 < cfgC7.F_DDA_MIN then cfgC7.F_DDA_MIN
             else (10000000:ℚ) / 1000000000000 * 1000000)) ∧
    ((_mq_set_f_dda cfgC7 10000000 1000000000000).1
        = chooseFdda cfgC7.F_DDA cfgC7.F_DDA_MIN cfgC7.DDA_OVERCLOCK
            ((10000000:ℚ) / 1000000000000 * 1000000) ∨
      ((_mq_set_f_dda cfgC7 10000000 1000000000000).1
          = (if (10000000:ℚ) / 1000000000000 * 1000000 < cfgC7.F_DDA_MIN then cfgC7.F_DDA_MIN
             else (10000000:ℚ) / 1000000000000 * 1000000) ∧
        (_mq_set_f_dda cfgC7 10000000 1000000000000).2.1 = 1)) ∧
    ((_mq_set_f_dda cfgC7 10000000 1000000000000).2.1 = 1 ∨
      ∃ k : ℕ, (_mq_set_f_dda cfgC7 10000000 1000000000000).2.1 = cfgC7.DDA_SUBSTEPS / 2 ^ k) :=
  C7_overflow_guard cfgC7 10000000 1000000000000

/-! ### Claims C5, C8, C9, C10: the submission API -/
theorem queue_fst_p (s : MqSingleton) :
    (mq_queue_motor_buffer s).1.p
      = if s.tail = s.head then s.p else some (mqIdx s.head) := by
  simp only [mq_queue_motor_buffer, MQ_BUFFER_SIZE]
  split
  · rfl
  · dsimp only

theorem queue_fst_prev2 (s : MqSingleton) :
    (mq_queue_motor_buffer s).1.move_buffer (mqIdx s.head)
      = if s.tail = s.head then s.move_buffer (mqIdx s.head)
        else { s.move_buffer (mqIdx s.head) with mq_state := MqState.loading } := by
  simp only [mq_queue_motor_buffer, MQ_BUFFER_SIZE]
  split
  · rfl
  · dsimp only
    rw [Function.update_same]

theorem queue_line_ok (cfg : MqCfg) (steps : Fin 4 → ℚ) (us : ℚ) (s : MqSingleton)
    (h1 : ¬ us < cfg.EPSILON)
    (h2 : ¬ (sumSq steps < 1 ∨ majorAxis steps < 1))
    (h3 : ¬ s.tail = s.head) :
    (mq_queue_line cfg steps (some us) s).2 = TgCode.ok ∧
    (mq_queue_line cfg steps (some us) s).1.p = some (mqIdx s.head) ∧
    (mq_queue_line cfg steps (some us) s).1.previous_ticks
        = u32cast (us / 1000000 * (_mq_set_f_dda cfg (majorAxis steps) us).1) ∧
    (mq_queue_line cfg steps (some us) s).1.move_buffer (mqIdx s.head)
      = { a := fun j =>
            { dir := xor (decide (steps j < 0)) (cfg.polarity j)
              steps := u32cast |steps j * (_mq_set_f_dda cfg (majorAxis steps) us).2.1| }
          timer_period := cfg.f_to_period (_mq_set_f_dda cfg (majorAxis steps) us).1
          timer_ticks := u32cast (us / 1000000 * (_mq_set_f_dda cfg (majorAxis steps) us).1)
          timer_ticks_X_substeps :=
            u32cast (us / 1000000 * (_mq_set_f_dda cfg (majorAxis steps) us).1
              * (_mq_set_f_dda cfg (majorAxis steps) us).2.1)
          counter_reset_flag :=
            decide ((u32cast (us / 1000000 * (_mq_set_f_dda cfg (majorAxis steps) us).1)
                * cfg.COUNTER_RESET_FACTOR) % 4294967296 < s.previous_ticks)
          mq_type := MqType.line
          mq_state := MqState.ready } := by
  unfold mq_queue_line
  dsimp only
  rw [if_neg h1, if_neg h2]
  simp only [mq_queue_motor_buffer, MQ_BUFFER_SIZE, if_neg h3]
  dsimp only
  unfold _mq_request_load
  dsimp only
  rw [Function.update_same, Function.update_same]
  refine ⟨rfl, rfl, rfl, rfl⟩

theorem queue_line_ok_conditions (cfg : MqCfg) (steps : Fin 4 → ℚ) (us : ℚ) (s : MqSingleton)
    (hok : (mq_queue_line cfg steps (some us) s).2 = TgCode.ok) :
    ¬ us < cfg.EPSILON ∧ ¬ (sumSq steps < 1 ∨ majorAxis steps < 1) ∧ ¬ s.tail = s.head := by
  by_cases h1 : us < cfg.EPSILON
  · rw [mq_queue_line] at hok
    dsimp only at hok
    rw [if_pos h1] at hok
    exact absurd hok (by simp)
  by_cases h2 : sumSq steps < 1 ∨ majorAxis steps < 1
  · rw [mq_queue_line] at hok
    dsimp only at hok
    rw [if_neg h1, if_pos h2] at hok
    exact absurd hok (by simp)
  by_cases h3 : s.tail = s.head
  · rw [mq_queue_line] at hok
    dsimp only at hok
    rw [if_neg h1, if_neg h2] at hok
    simp only [mq_queue_motor_buffer, MQ_BUFFER_SIZE, if_pos h3] at hok
    exact absurd hok (by simp)
  exact ⟨h1, h2, h3⟩

/-- C8: `mq_queue_line` returns `ZeroLengthMove` exactly when its input
is degenerate (non-finite duration, duration below `EPSILON`, vector
length below 1 -- embedded as the equivalent `sumSq < 1` -- or major
axis steps below 1), and on that return the whole buffer state (head,
tail, `previous_ticks`, every slot, and the current-slot pointer) is
unchanged: validation happens entirely before reservation. -/
theorem C8_validation (cfg : MqCfg) (steps : Fin 4 → ℚ) (usOpt : Option ℚ) (s : MqSingleton) :
    ((mq_queue_line cfg steps usOpt s).2 = TgCode.zeroLengthMove ↔
      (usOpt = Option.none ∨ ∃ us, usOpt = some us ∧
        (us < cfg.EPSILON ∨ sumSq steps < 1 ∨ majorAxis steps < 1))) ∧
    ((mq_queue_line cfg steps usOpt s).2 = TgCode.zeroLengthMove →
      (mq_queue_line cfg steps usOpt s).1 = s) := by
  cases usOpt with
  | none => exact ⟨by simp [mq_queue_line], fun _ => rfl⟩
  | some us =>
    rw [mq_queue_line]
    dsimp only
    by_cases h1 : us < cfg.EPSILON
    · rw [if_pos h1]
      exact ⟨by simp [h1], fun _ => rfl⟩
    rw [if_neg h1]
    by_cases h2 : sumSq steps < 1 ∨ majorAxis steps < 1
    · rw [if_pos h2]
      constructor
      · simp only [true_iff]
        exact Or.inr ⟨us, rfl, Or.inr h2⟩
      · exact fun _ => rfl
    rw [if_neg h2]
    rcases hq : mq_queue_motor_buffer s with ⟨s1, oi⟩
    cases oi with
    | none =>
      constructor
      · simp only [reduceCtorEq, false_iff]
        rintro (hbad | ⟨us2, heq, hc⟩)
        · simp at hbad
        · obtain rfl : us = us2 := by injection heq
          rcases hc with hc | hc
          · exact h1 hc
          · exact h2 hc
      · intro hc
        exact absurd hc (by simp)
    | some i =>
      constructor
      · rw [req_snd]
        simp only [reduceCtorEq, false_iff]
        rintro (hbad | ⟨us2, heq, hc⟩)
        · simp at hbad
        · obtain rfl : us = us2 := by injection heq
          rcases hc with hc | hc
          · exact h1 hc
          · exact h2 hc
      · intro hc
        rw [req_snd] at hc
        exact absurd hc (by simp)

theorem overflowGuard_sub_nonneg (fmin base us f s : ℚ) :
    0 ≤ s → 0 ≤ (overflowGuard fmin base us f s).2.1 := by
  induction s using overflowGuard.induct fmin base us f with
  | case1 x hov hlt hov2 =>
    intro _
    simp only [dite_eq_ite] at hov2
    rw [overflowGuard, if_pos hov, dif_pos hlt, if_pos hov2]
    norm_num
  | case2 x hov hlt hov2 =>
    intro _
    simp only [dite_eq_ite] at hov2
    rw [overflowGuard, if_pos hov, dif_pos hlt, if_neg hov2]
    norm_num
  | case3 x hov hlt ih =>
    intro hs0
    rw [overflowGuard, if_pos hov, dif_neg hlt]
    exact ih (by linarith)
  | case4 x hov =>
    intro hs0
    rw [overflowGuard, if_neg hov]
    exact hs0

/-- C9: in every successful `mq_queue_line` call the published slot's
`counter_reset_flag` is true exactly when `timer_ticks *
COUNTER_RESET_FACTOR < previous_ticks` in unsigned 32-bit (mod 2^32)
arithmetic (comparing against the pre-call `previous_ticks`), and
`previous_ticks` is unconditionally set to the new `timer_ticks`. -/
theorem C9_counter_reset (cfg : MqCfg) (steps : Fin 4 → ℚ) (us : ℚ) (s : MqSingleton)
    (hok : (mq_queue_line cfg steps (some us) s).2 = TgCode.ok) :
    (mq_queue_line cfg steps (some us) s).1.p = some (mqIdx s.head) ∧
    (mq_queue_line cfg steps (some us) s).1.previous_ticks
        = ((mq_queue_line cfg steps (some us) s).1.move_buffer (mqIdx s.head)).timer_ticks ∧
    ((mq_queue_line cfg steps (some us) s).1.move_buffer (mqIdx s.head)).counter_reset_flag
      = decide ((((mq_queue_line cfg steps (some us) s).1.move_buffer
            (mqIdx s.head)).timer_ticks * cfg.COUNTER_RESET_FACTOR) % 4294967296
          < s.previous_ticks) := by
  obtain ⟨h1, h2, h3⟩ := queue_line_ok_conditions cfg steps us s hok
  obtain ⟨_, hp, hprev, hslot⟩ := queue_line_ok cfg steps us s h1 h2 h3
  rw [hp, hprev, hslot]
  exact ⟨rfl, rfl, rfl⟩

/-- C5, amended: for every successful `mq_queue_line` call (with a
nonnegative configured substep multiplier) the published slot satisfies,
for each axis `j`: direction bit `= (steps j < 0) XOR polarity j`,
`step_count = u32cast (|steps j| * substeps)` (the C cast truncates
toward zero -- the claim's round-to-nearest is refuted by
`C5_counterexample`); `timer_period = _f_to_period f`, `timer_ticks =
u32cast (duration/1e6 * f)` and `timer_ticks_X_substeps = u32cast
(duration/1e6 * f * substeps)` for the `(f, substeps)` returned by
`_mq_set_f_dda`. -/
theorem C5_published_slot (cfg : MqCfg) (steps : Fin 4 → ℚ) (us : ℚ) (s : MqSingleton)
    (hok : (mq_queue_line cfg steps (some us) s).2 = TgCode.ok)
    (hsub : 0 ≤ cfg.DDA_SUBSTEPS) :
    (mq_queue_line cfg steps (some us) s).1.p = some (mqIdx s.head) ∧
    (∀ j, ((mq_queue_line cfg steps (some us) s).1.move_buffer (mqIdx s.head)).a j
      = { dir := xor (decide (steps j < 0)) (cfg.polarity j)
          steps := u32cast (|steps j| * (_mq_set_f_dda cfg (majorAxis steps) us).2.1) }) ∧
    ((mq_queue_line cfg steps (some us) s).1.move_buffer (mqIdx s.head)).timer_period
      = cfg.f_to_period (_mq_set_f_dda cfg (majorAxis steps) us).1 ∧
    ((mq_queue_line cfg steps (some us) s).1.move_buffer (mqIdx s.head)).timer_ticks
      = u32cast (us / 1000000 * (_mq_set_f_dda cfg (majorAxis steps) us).1) ∧
    ((mq_queue_line cfg steps (some us) s).1.move_buffer (mqIdx s.head)).timer_ticks_X_substeps
      = u32cast (us / 1000000 * (_mq_set_f_dda cfg (majorAxis steps) us).1
          * (_mq_set_f_dda cfg (majorAxis steps) us).2.1) := by
  obtain ⟨h1, h2, h3⟩ := queue_line_ok_conditions cfg steps us s hok
  obtain ⟨_, hp, _, hslot⟩ := queue_line_ok cfg steps us s h1 h2 h3
  have hsub2 : 0 ≤ (_mq_set_f_dda cfg (majorAxis steps) us).2.1 :=
    overflowGuard_sub_nonneg _ _ _ _ _ hsub
  rw [hp, hslot]
  refine ⟨rfl, fun j => ?_, rfl, rfl, rfl⟩
  dsimp only
  rw [abs_mul, abs_of_nonneg hsub2]

theorem queue_dwell_ok (cfg : MqCfg) (usOpt : Option ℚ) (s : MqSingleton)
    (h3 : ¬ s.tail = s.head) :
    (mq_queue_dwell cfg usOpt s).2 = TgCode.ok ∧
    (mq_queue_dwell cfg usOpt s).1.p = some (mqIdx s.head) ∧
    (mq_queue_dwell cfg usOpt s).1.move_buffer (mqIdx s.head)
      = { s.move_buffer (mqIdx s.head) with
          timer_period := cfg.f_to_period cfg.F_DWELL
          timer_ticks :=
            (match usOpt with
              | some us => u32cast (us / 1000000 * cfg.F_DWELL)
              | Option.none => 0)
          mq_type := MqType.dwell
          mq_state := MqState.ready } := by
  unfold mq_queue_dwell
  simp only [mq_queue_motor_buffer, MQ_BUFFER_SIZE, if_neg h3]
  unfold _mq_request_load
  dsimp only
  simp only [Function.update_same]
  exact ⟨trivial, trivial, trivial⟩

/-- C10: `mq_queue_dwell` performs no input validation: for every
duration (including the `none` encoding of a non-finite value) it never
returns `ZeroLengthMove`; it returns `BufferFull` exactly when no slot
can be reserved (`tail == head`); and otherwise it publishes a `Dwell`
slot whose `timer_ticks` is the truncated `duration/1e6 * F_DWELL`
(stated for finite durations; the C cast of a non-finite value is
undefined behaviour). -/
theorem C10_dwell (cfg : MqCfg) (usOpt : Option ℚ) (s : MqSingleton) :
    ((mq_queue_dwell cfg usOpt s).2 ≠ TgCode.zeroLengthMove) ∧
    ((mq_queue_dwell cfg usOpt s).2 = TgCode.bufferFullNonFatal ↔ s.tail = s.head) ∧
    (∀ us, usOpt = some us → ¬ s.tail = s.head →
      (mq_queue_dwell cfg usOpt s).2 = TgCode.ok ∧
      (mq_queue_dwell cfg usOpt s).1.p = some (mqIdx s.head) ∧
      ((mq_queue_dwell cfg usOpt s).1.move_buffer (mqIdx s.head)).mq_type = MqType.dwell ∧
      ((mq_queue_dwell cfg usOpt s).1.move_buffer (mqIdx s.head)).timer_ticks
        = u32cast (us / 1000000 * cfg.F_DWELL) ∧
      ((mq_queue_dwell cfg usOpt s).1.move_buffer (mqIdx s.head)).timer_period
        = cfg.f_to_period cfg.F_DWELL) := by
  by_cases h3 : s.tail = s.head
  · have hfull : (mq_queue_dwell cfg usOpt s).2 = TgCode.bufferFullNonFatal := by
      unfold mq_queue_dwell
      simp only [mq_queue_motor_buffer, MQ_BUFFER_SIZE, if_pos h3]
    rw [hfull]
    exact ⟨by simp, by simp [h3], fun us _ hc => absurd h3 hc⟩
  · obtain ⟨hok, hp, hslot⟩ := queue_dwell_ok cfg usOpt s h3
    rw [hok, hp, hslot]
    refine ⟨by simp, by simp [h3], fun us hus _ => ⟨rfl, rfl, rfl, ?_, rfl⟩⟩
    rw [hus]

/-! ### Concrete configurations and witnesses for the submission API -/

theorem habs100 : |(100:ℚ)| = 100 := abs_of_nonneg (by norm_num)

theorem habs32 : |(3/2:ℚ)| = 3/2 := abs_of_nonneg (by norm_num)

theorem hmaj100 : majorAxis steps100 = 100 := by
  norm_num [majorAxis, steps100, Matrix.cons_val_zero, Matrix.cons_val_one, Matrix.head_cons,
    Matrix.cons_val_two, Matrix.cons_val_three, Matrix.vecTail, Matrix.vecHead,
    habs100, abs_zero]

theorem hmajC5 : majorAxis stepsC5 = 3/2 := by
  norm_num [majorAxis, stepsC5, Matrix.cons_val_zero, Matrix.cons_val_one, Matrix.head_cons,
    Matrix.cons_val_two, Matrix.cons_val_three, Matrix.vecTail, Matrix.vecHead,
    habs32, abs_zero]

theorem hfd100 : _mq_set_f_dda cfg0 100 1000000 = (100, 1, false) := by
  show overflowGuard _ _ _ _ _ = _
  rw [overflowGuard]
  norm_num [cfg0, MAX_ULONG, chooseFdda]

theorem hfdC5 : _mq_set_f_dda cfg0 (3/2) 1000000 = (3/2, 1, false) := by
  show overflowGuard _ _ _ _ _ = _
  rw [overflowGuard]
  norm_num [cfg0, MAX_ULONG, chooseFdda]

theorem hsum100 : ¬ (sumSq steps100 < 1 ∨ majorAxis steps100 < 1) := by
  rw [hmaj100]
  norm_num [sumSq, steps100, Matrix.cons_val_zero, Matrix.cons_val_one, Matrix.head_cons,
    Matrix.cons_val_two, Matrix.cons_val_three, Matrix.vecTail, Matrix.vecHead]

theorem hsumC5 : ¬ (sumSq stepsC5 < 1 ∨ majorAxis stepsC5 < 1) := by
  rw [hmajC5]
  norm_num [sumSq, stepsC5, Matrix.cons_val_zero, Matrix.cons_val_one, Matrix.head_cons,
    Matrix.cons_val_two, Matrix.cons_val_three, Matrix.vecTail, Matrix.vecHead]

theorem heps0 : ¬ (1000000:ℚ) < cfg0.EPSILON := by norm_num [cfg0]

theorem hne0 : ¬ initState.tail = initState.head := by decide

theorem line_ok100 : (mq_queue_line cfg0 steps100 (some 1000000) initState).2 = TgCode.ok :=
  (queue_line_ok cfg0 steps100 1000000 initState heps0 hsum100 hne0).1

theorem line_okC5 : (mq_queue_line cfg0 stepsC5 (some 1000000) initState).2 = TgCode.ok :=
  (queue_line_ok cfg0 stepsC5 1000000 initState heps0 hsumC5 hne0).1

/-- C5, counterexample: the claim says `step_count` and the tick counts
are *rounded* (`round`).  Queue the move `steps = [3/2, 0, 0, 0]` over
1 second under `cfg0` (substep multiplier 1, overclock disabled): the
quantizer returns `f = 3/2`, `substeps = 1`; the published slot holds
`timer_ticks = 1` and axis-0 `step_count = 1` (C truncation), while the
claimed `round(duration/1e6 * f) = round(3/2) = 2` and
`round(|steps 0| * substeps) = 2`. -/
theorem C5_counterexample :
    (mq_queue_line cfg0 stepsC5 (some 1000000) initState).2 = TgCode.ok ∧
    ((mq_queue_line cfg0 stepsC5 (some 1000000) initState).1.move_buffer
        (mqIdx initState.head)).timer_ticks = 1 ∧
    roundSpec ((1000000:ℚ) / 1000000 * (_mq_set_f_dda cfg0 (majorAxis stepsC5) 1000000).1)
      = 2 ∧
    (((mq_queue_line cfg0 stepsC5 (some 1000000) initState).1.move_buffer
        (mqIdx initState.head)).a 0).steps = 1 ∧
    roundSpec (|stepsC5 0| * (_mq_set_f_dda cfg0 (majorAxis stepsC5) 1000000).2.1) = 2 := by
  obtain ⟨_, hp, _, hslot⟩ :=
    queue_line_ok cfg0 stepsC5 1000000 initState heps0 hsumC5 hne0
  refine ⟨line_okC5, ?_, ?_, ?_, ?_⟩
  · rw [hslot]
    dsimp only
    rw [hmajC5, hfdC5]
    norm_num [u32cast, qtrunc]
  · rw [hmajC5, hfdC5]
    norm_num [roundSpec]
  · rw [hslot]
    dsimp only
    rw [hmajC5, hfdC5]
    norm_num [u32cast, qtrunc, stepsC5, Matrix.cons_val_zero, habs32]
  · rw [hmajC5, hfdC5]
    norm_num [roundSpec, stepsC5, Matrix.cons_val_zero, habs32]

/-- C5, witness: the amended slot equations evaluated for the spec's
example move `[100, 0, 0, 0]` over 1 second. -/
theorem C5_witness :
    (mq_queue_line cfg0 steps100 (some 1000000) initState).1.p
        = some (mqIdx initState.head) ∧
    ((mq_queue_line cfg0 steps100 (some 1000000) initState).1.move_buffer
        (mqIdx initState.head)).a 0
      = { dir := xor (decide (steps100 0 < 0)) (cfg0.polarity 0)
          steps := u32cast (|steps100 0|
            * (_mq_set_f_dda cfg0 (majorAxis steps100) 1000000).2.1) } ∧
    ((mq_queue_line cfg0 steps100 (some 1000000) initState).1.move_buffer
        (mqIdx initState.head)).timer_period
      = cfg0.f_to_period (_mq_set_f_dda cfg0 (majorAxis steps100) 1000000).1 ∧
    ((mq_queue_line cfg0 steps100 (some 1000000) initState).1.move_buffer
        (mqIdx initState.head)).timer_ticks
      = u32cast ((1000000:ℚ) / 1000000 * (_mq_set_f_dda cfg0 (majorAxis steps100) 1000000).1) ∧
    ((mq_queue_line cfg0 steps100 (some 1000000) initState).1.move_buffer
        (mqIdx initState.head)).timer_ticks_X_substeps
      = u32cast ((1000000:ℚ) / 1000000 * (_mq_set_f_dda cfg0 (majorAxis steps100) 1000000).1
          * (_mq_set_f_dda cfg0 (majorAxis steps100) 1000000).2.1) := by
  obtain ⟨hp, haxis, hper, hticks, hsc⟩ :=
    C5_published_slot cfg0 steps100 1000000 initState line_ok100 (by norm_num [cfg0])
  exact ⟨hp, haxis 0, hper, hticks, hsc⟩

/-- C8, witness: the spec's test case `steps = [0,0,0,0]`,
`duration_us = 10000`: the call returns `ZeroLengthMove` and the state
is completely unchanged. -/
theorem C8_witness :
    (mq_queue_line cfg0 stepsZero (some 10000) initState).2 = TgCode.zeroLengthMove ∧
    (mq_queue_line cfg0 stepsZero (some 10000) initState).1 = initState := by
  have hz : sumSq stepsZero < 1 := by
    norm_num [sumSq, stepsZero, Matrix.cons_val_zero, Matrix.cons_val_one, Matrix.head_cons,
      Matrix.cons_val_two, Matrix.cons_val_three, Matrix.vecTail, Matrix.vecHead]
  have h := (C8_validation cfg0 stepsZero (some 10000) initState).1.mpr
    (Or.inr ⟨10000, rfl, Or.inr (Or.inl hz)⟩)
  exact ⟨h, (C8_validation cfg0 stepsZero (some 10000) initState).2 h⟩

/-- C9, witness: the counter-reset equations evaluated for the move
`[100, 0, 0, 0]` over 1 second from the initial state. -/
theorem C9_witness :
    (mq_queue_line cfg0 steps100 (some 1000000) initState).1.p
        = some (mqIdx initState.head) ∧
    (mq_queue_line cfg0 steps100 (some 1000000) initState).1.previous_ticks
        = ((mq_queue_line cfg0 steps100 (some 1000000) initState).1.move_buffer
            (mqIdx initState.head)).timer_ticks ∧
    ((mq_queue_line cfg0 steps100 (some 1000000) initState).1.move_buffer
        (mqIdx initState.head)).counter_reset_flag
      = decide ((((mq_queue_line cfg0 steps100 (some 1000000) initState).1.move_buffer
            (mqIdx initState.head)).timer_ticks * cfg0.COUNTER_RESET_FACTOR) % 4294967296
          < initState.previous_ticks) :=
  C9_counter_reset cfg0 steps100 1000000 initState line_ok100

/-- C10, witness: a 0.5-second dwell queued into the initial state: not
a `ZeroLengthMove`, not `BufferFull` (the buffer is not full), and the
published slot is a `Dwell` with the truncated tick count. -/
theorem C10_witness :
    (mq_queue_dwell cfg0 (some 500000) initState).2 ≠ TgCode.zeroLengthMove ∧
    ((mq_queue_dwell cfg0 (some 500000) initState).2 = TgCode.bufferFullNonFatal
        ↔ initState.tail = initState.head) ∧
    (mq_queue_dwell cfg0 (some 500000) initState).2 = TgCode.ok ∧
    ((mq_queue_dwell cfg0 (some 500000) initState).1.move_buffer
        (mqIdx initState.head)).mq_type = MqType.dwell ∧
    ((mq_queue_dwell cfg0 (some 500000) initState).1.move_buffer
        (mqIdx initState.head)).timer_ticks
      = u32cast ((500000:ℚ) / 1000000 * cfg0.F_DWELL) := by
  have h := C10_dwell cfg0 (some 500000) initState
  obtain ⟨hok, hp, htype, hticks, hper⟩ := h.2.2 500000 rfl hne0
  exact ⟨h.1, h.2.1, hok, htype, hticks⟩
